import Mathlib

/-
Verification of the reader3 book server (src/server.py).

The development shallowly embeds the server's pure decision logic:
  * os.path.basename / os.path.join / os.path.splitext on POSIX paths,
    modelled on character lists;
  * the functools.lru_cache(maxsize=10) wrapper around load_book_cached,
    modelled as an explicit most-recently-used-first association list;
  * the request handlers library_view, redirect_to_first_chapter,
    read_chapter, serve_image and upload_epub, with the filesystem and the
    external ingestion pipeline passed in as explicit parameters.
-/

namespace Reader3

/-- Modelled from the spec: book metadata of the reader3 ingestion module
(title plus ordered author list); the module itself is not in src. -/
structure BookMetadata where
  title : String
  authors : List String
  deriving DecidableEq

/-- Modelled from the spec: one entry of a book's reading sequence; the
rendering payload is opaque to the server. -/
structure ChapterContent where
  payload : String
  deriving DecidableEq

/-- Modelled from the spec: aggregate of metadata and the ordered chapter
spine (index 0 is the first chapter). -/
structure Book where
  metadata : BookMetadata
  spine : List ChapterContent
  deriving DecidableEq

/-! ### POSIX path primitives used by server.py -/

/-- Characters of a POSIX path after its last slash: os.path.basename on
character lists (CPython posixpath.basename returns p[p.rfind(sep)+1:]). -/
def bnCh (cs : List Char) : List Char :=
  (cs.reverse.takeWhile (fun c => c != '/')).reverse

/-- os.path.basename for POSIX paths. -/
def basename (s : String) : String :=
  ⟨bnCh s.data⟩

/-- One fold step of os.path.join for POSIX paths, on character lists:
an absolute component resets the path; otherwise a separator is inserted
unless the accumulated path is empty or already ends with one. -/
def pjoinCh (p b : List Char) : List Char :=
  if b.head? = some '/' then b
  else if p = [] ∨ p.getLast? = some '/' then p ++ b
  else p ++ '/' :: b

/-- os.path.join for two POSIX path components. -/
def pjoin (p b : String) : String :=
  ⟨pjoinCh p.data b.data⟩

/-- Split a character list into its slash-separated segments
(every slash separates; adjacent slashes give empty segments). -/
def splitSegs : List Char → List (List Char)
  | [] => [[]]
  | c :: rest =>
    match splitSegs rest with
    | [] => [[]]
    | s :: ss => if c = '/' then [] :: s :: ss else (c :: s) :: ss

/-- One step of lexical path normalisation over a segment stack: empty and
dot segments are dropped, a dot-dot segment pops the last real segment and
fails (escapes) when the stack is empty, any other segment is pushed. -/
def normStep (st : Option (List (List Char))) (seg : List Char) :
    Option (List (List Char)) :=
  match st with
  | none => none
  | some stack =>
    if seg = [] ∨ seg = ['.'] then some stack
    else if seg = ['.', '.'] then
      if stack = [] then none else some stack.dropLast
    else some (stack ++ [seg])

/-- Lexical normalisation of a segment list; none means the path climbed
above its starting point via dot-dot segments. -/
def normStk (segs : List (List Char)) : Option (List (List Char)) :=
  segs.foldl normStep (some [])

/-- Boolean list-prefix test on segment lists. -/
def prefOf : List (List Char) → List (List Char) → Bool
  | [], _ => true
  | _ :: _, [] => false
  | a :: as, b :: bs => a == b && prefOf as bs

/-- The test staysUnder root p holds when both paths normalise lexically and
the normalised root is a prefix of the normalised path: p cannot reach
outside root by dot-dot traversal. -/
def staysUnder (root p : String) : Bool :=
  match normStk (splitSegs root.data), normStk (splitSegs p.data) with
  | some r, some q => prefOf r q
  | _, _ => false

/-- The path built by serve_image (src/server.py lines 104-108): basename is
applied to both untrusted inputs, then os.path.join with the fixed "images"
component. -/
def serve_image_path (root book_id image_name : String) : String :=
  pjoin (pjoin (pjoin root (basename book_id)) "images") (basename image_name)


/-! ### The functools.lru_cache(maxsize=10) wrapper of load_book_cached -/

/-- State of the lru_cache wrapper: entries keyed by folder name, most
recently used first. Every computed result is stored, including None. -/
structure LruState where
  entries : List (String × Option Book)
  deriving DecidableEq

/-- functools.lru_cache(maxsize=10) on load_book_cached. -/
def lruCapacity : Nat := 10

/-- Result of one cached call: the value returned to the caller, the cache
state afterwards, and whether the underlying disk load ran. -/
structure GetResult where
  value : Option Book
  state : LruState
  diskRead : Bool
  deriving DecidableEq

/-- Look a key up in the entry list (None result entries included). -/
def lookupEntry (es : List (String × Option Book)) (k : String) :
    Option (Option Book) :=
  (es.find? (fun e => e.1 == k)).map Prod.snd

/-- One call of the lru_cache-wrapped load_book_cached (src/server.py lines
26-42). `disk` is the underlying body: it yields the deserialized book, or
none when book.pkl is missing or fails to unpickle. A hit returns the stored
value (also a stored none) and marks the key most recently used; a miss runs
the body, stores whatever it returned, and trims to capacity, dropping the
least recently used entry. -/
def load_book_cached (disk : String → Option Book) (s : LruState)
    (k : String) : GetResult :=
  match s.entries.find? (fun e => e.1 == k) with
  | some e =>
    { value := e.2
      state := ⟨(k, e.2) :: s.entries.filter (fun e2 => !(e2.1 == k))⟩
      diskRead := false }
  | none =>
    let v := disk k
    { value := v
      state := ⟨((k, v) :: s.entries).take lruCapacity⟩
      diskRead := true }

/-- A sequence of cached loads, folding the cache state through the keys. -/
def runLoads (disk : String → Option Book) (s : LruState)
    (keys : List String) : LruState :=
  keys.foldl (fun st k => (load_book_cached disk st k).state) s

/-! ### Chapter navigation (read_chapter, redirect_to_first_chapter) -/

/-- The two 404 failures of the reader routes. -/
inductive ReadError
  | bookNotFound
  | chapterOutOfRange
  deriving DecidableEq

/-- The rendering data handed to reader.html (src/server.py lines 87-95). -/
structure ReaderView where
  book : Book
  current_chapter : ChapterContent
  chapter_index : Int
  book_id : String
  prev_idx : Option Int
  next_idx : Option Int
  deriving DecidableEq

/-- read_chapter (src/server.py lines 71-95). `cache` abstracts the value
load_book_cached returns for book_id. The book lookup is checked first;
then the index bound; on success the chapter and the prev/next indices are
computed exactly as in the source. -/
def read_chapter (cache : String → Option Book) (book_id : String)
    (chapter_index : Int) : Except ReadError ReaderView :=
  match cache book_id with
  | none => .error .bookNotFound
  | some book =>
    if h : chapter_index < 0 ∨ (book.spine.length : Int) ≤ chapter_index then
      .error .chapterOutOfRange
    else
      .ok { book := book
            current_chapter := book.spine.get ⟨chapter_index.toNat, by omega⟩
            chapter_index := chapter_index
            book_id := book_id
            prev_idx := if 0 < chapter_index then some (chapter_index - 1) else none
            next_idx :=
              if chapter_index < (book.spine.length : Int) - 1
              then some (chapter_index + 1) else none }

/-- Outcome of calling the read_chapter handler as a Python function: the
source signature (src/server.py line 72) has three required parameters
request, book_id and chapter_index, so a call that supplies no request
fails argument binding and raises TypeError before the body runs; the
framework surfaces that as an HTTP 500, not as the handler's result. -/
inductive CallOutcome
  | typeError
  | returns (r : Except ReadError ReaderView)

/-- Python call-argument binding for read_chapter: request is opaque and
only its presence matters; absent request means TypeError, a bound call
runs the handler body. -/
def read_chapter_call (cache : String → Option Book) (request : Option Unit)
    (book_id : String) (chapter_index : Int) : CallOutcome :=
  match request with
  | none => CallOutcome.typeError
  | some _ => CallOutcome.returns (read_chapter cache book_id chapter_index)

/-- redirect_to_first_chapter (src/server.py lines 66-69): line 69 calls
read_chapter(book_id=book_id, chapter_index=0) and supplies no value for
the required request parameter, so the call never binds. -/
def redirect_to_first_chapter (cache : String → Option Book)
    (book_id : String) : CallOutcome :=
  read_chapter_call cache none book_id 0

/-! ### Catalog listing (library_view) -/

/-- One directory child as seen by os.listdir plus os.path.isdir. -/
structure DirEntry where
  name : String
  isDir : Bool
  deriving DecidableEq

/-- One catalog row (src/server.py lines 57-62). -/
structure BookSummary where
  id : String
  title : String
  author : String
  chapters : Nat
  deriving DecidableEq

/-- Python str.endswith, on the underlying character lists. -/
def strEndsWith (s suffixStr : String) : Bool :=
  suffixStr.data.isSuffixOf s.data

/-- The catalog row emitted for a directory entry whose book loaded. -/
def summarize (e : DirEntry) (book : Book) : BookSummary :=
  { id := e.name
    title := book.metadata.title
    author := String.intercalate ", " book.metadata.authors
    chapters := book.spine.length }

/-- library_view (src/server.py lines 44-64). `rootExists` is
os.path.exists(BOOKS_DIR), `entries` the os.listdir children with their
isdir flag, `cache` the load_book_cached result per folder name. When the
root is missing nothing is scanned and the list is empty. -/
def library_view (rootExists : Bool) (entries : List DirEntry)
    (cache : String → Option Book) : List BookSummary :=
  if rootExists then
    entries.filterMap (fun e =>
      if strEndsWith e.name "_data" && e.isDir then
        (cache e.name).map (summarize e)
      else none)
  else []

/-- Modelled from the spec: the Book Store Scanner's list_candidates — a
child qualifies iff it is a directory and its name ends in "_data". Stated
separately from library_view to compare the source against the spec's
Scanner/Assembler decomposition. -/
def list_candidates (entries : List DirEntry) : List DirEntry :=
  entries.filter (fun e => strEndsWith e.name "_data" && e.isDir)

/-! ### Upload intake (upload_epub) -/

/-- The root part of os.path.splitext: everything before the final dot,
except that a dot-run at the start of the final path component is not an
extension (CPython genericpath._splitext). -/
def splitextRoot (p : String) : String :=
  let cs := p.data
  let sepIndex : Int := match (cs.indexesOf '/').getLast? with
    | none => -1
    | some i => (i : Int)
  let dotIndex : Int := match (cs.indexesOf '.').getLast? with
    | none => -1
    | some i => (i : Int)
  if sepIndex < dotIndex then
    let stem := (cs.drop (sepIndex + 1).toNat).take (dotIndex - sepIndex - 1).toNat
    if stem.any (fun c => c != '.') then ⟨cs.take dotIndex.toNat⟩ else p
  else p

/-- The HTTP outcomes of upload_epub. -/
inductive UploadResponse
  | badRequest (msg : String)
  | serverError (msg : String)
  | success (title : String) (id : String)
  deriving DecidableEq

/-- What one upload_epub call did: its response, whether the temporary file
was created, whether it was deleted before returning, and whether the book
cache was cleared. -/
structure UploadOutcome where
  response : UploadResponse
  tempCreated : Bool
  tempRemoved : Bool
  cacheCleared : Bool
  deriving DecidableEq

/-- upload_epub (src/server.py lines 148-188). `ingest` abstracts
process_epub plus save_to_pickle on the written temp file: ok with the book
object, or error with the raised message. The name check runs before any
work; os.unlink(tmp_path) sits after ingestion inside the try block, so
when ingestion raises, the except branch returns the 500 response with the
temp file still on disk. -/
def upload_epub (filename : String) (ingest : Except String Book) :
    UploadOutcome :=
  if !(strEndsWith filename ".epub") then
    { response := .badRequest "Only .epub files are allowed"
      tempCreated := false
      tempRemoved := false
      cacheCleared := false }
  else
    match ingest with
    | .error e =>
      { response := .serverError e
        tempCreated := true
        tempRemoved := false
        cacheCleared := false }
    | .ok book =>
      { response := .success book.metadata.title (splitextRoot filename ++ "_data")
        tempCreated := true
        tempRemoved := true
        cacheCleared := true }

/-- The output folder upload_epub builds (src/server.py lines 165-166):
os.path.join(BOOKS_DIR, base_name + "_data") with base_name the splitext
root of the uploaded filename — no sanitisation is applied. -/
def upload_output_dir (root filename : String) : String :=
  pjoin root (splitextRoot filename ++ "_data")


/-! ### Concrete fixtures used by the witnesses -/

/-- A three-chapter sample book, as in the end-to-end example of the spec. -/
def sampleBook : Book :=
  { metadata := { title := "Sample", authors := ["A. Author"] }
    spine := [⟨"c0"⟩, ⟨"c1"⟩, ⟨"c2"⟩] }

/-- A one-book cache lookup: only the folder Sample_data resolves. -/
def sampleCache : String → Option Book :=
  fun s => if s = "Sample_data" then some sampleBook else none

/-- A disk on which every folder deserializes to the sample book. -/
def constDisk : String → Option Book :=
  fun _ => some sampleBook

/-- A full ten-entry cache state for the C5 witness. -/
def tenState : LruState :=
  ⟨[("e0", none), ("e1", none), ("e2", none), ("e3", none), ("e4", none),
    ("e5", none), ("e6", none), ("e7", none), ("e8", none), ("e9", none)]⟩

/-! ### Helper lemmas about read_chapter -/

theorem read_chapter_of_none {cache : String → Option Book} {id : String}
    {i : Int} (h : cache id = none) :
    read_chapter cache id i = Except.error ReadError.bookNotFound := by
  simp [read_chapter, h]

theorem read_chapter_oor {cache : String → Option Book} {id : String}
    {book : Book} {i : Int} (h : cache id = some book)
    (hi : i < 0 ∨ (book.spine.length : Int) ≤ i) :
    read_chapter cache id i = Except.error ReadError.chapterOutOfRange := by
  simp only [read_chapter, h]
  rw [dif_pos hi]

theorem read_chapter_ok {cache : String → Option Book} {id : String}
    {book : Book} {i : Int} (h : cache id = some book) (h0 : 0 ≤ i)
    (hn : i < (book.spine.length : Int)) :
    ∃ hlt : i.toNat < book.spine.length,
      read_chapter cache id i =
        Except.ok { book := book
                    current_chapter := book.spine.get ⟨i.toNat, hlt⟩
                    chapter_index := i
                    book_id := id
                    prev_idx := if 0 < i then some (i - 1) else none
                    next_idx :=
                      if i < (book.spine.length : Int) - 1
                      then some (i + 1) else none } := by
  have hlt : i.toNat < book.spine.length := by omega
  refine ⟨hlt, ?_⟩
  simp only [read_chapter, h]
  rw [dif_neg (by omega)]

/-! ### Claim theorems -/

/-- C2: for every loadable book and every index i with 0 ≤ i < n = spine
length, read_chapter succeeds with chapter = spine[i]; prev_index is i - 1
when i > 0 and absent exactly when i = 0; next_index is i + 1 when
i < n - 1 and absent exactly when i = n - 1. -/
theorem read_chapter_in_range_spec (cache : String → Option Book)
    (id : String) (book : Book) (i : Int) (h : cache id = some book)
    (h0 : 0 ≤ i) (hn : i < (book.spine.length : Int)) :
    ∃ v : ReaderView, read_chapter cache id i = Except.ok v ∧
      v.book = book ∧ v.chapter_index = i ∧
      book.spine.get? i.toNat = some v.current_chapter ∧
      (v.prev_idx = none ↔ i = 0) ∧
      (0 < i → v.prev_idx = some (i - 1)) ∧
      (v.next_idx = none ↔ i = (book.spine.length : Int) - 1) ∧
      (i < (book.spine.length : Int) - 1 → v.next_idx = some (i + 1)) := by
  obtain ⟨hlt, hok⟩ := read_chapter_ok h h0 hn
  refine ⟨_, hok, rfl, rfl, ?_, ?_, ?_, ?_, ?_⟩
  · exact (List.get?_eq_get hlt)
  · split_ifs with hp <;> simp <;> omega
  · intro hp; simp [if_pos hp]
  · split_ifs with hp <;> simp <;> omega
  · intro hp; simp [if_pos hp]

/-- C2 witness: the sample book at index 1. -/
theorem read_chapter_in_range_spec_witness :
    ∃ v : ReaderView, read_chapter sampleCache "Sample_data" 1 = Except.ok v ∧
      v.book = sampleBook ∧ v.chapter_index = 1 ∧
      sampleBook.spine.get? (1 : Int).toNat = some v.current_chapter ∧
      (v.prev_idx = none ↔ (1 : Int) = 0) ∧
      ((0 : Int) < 1 → v.prev_idx = some (1 - 1)) ∧
      (v.next_idx = none ↔ (1 : Int) = (sampleBook.spine.length : Int) - 1) ∧
      ((1 : Int) < (sampleBook.spine.length : Int) - 1 →
        v.next_idx = some (1 + 1)) :=
  read_chapter_in_range_spec sampleCache "Sample_data" sampleBook 1
    (by decide) (by decide) (by decide)

/-- C3: a missing book fails with BookNotFound for every index, so the book
check precedes index validation; for a loadable book the request fails with
ChapterOutOfRange exactly when the index is negative or at least the spine
length. -/
theorem read_chapter_errors (cache : String → Option Book) (id : String)
    (i : Int) (book : Book) :
    (cache id = none →
      read_chapter cache id i = Except.error ReadError.bookNotFound) ∧
    (cache id = some book →
      (read_chapter cache id i = Except.error ReadError.chapterOutOfRange ↔
        (i < 0 ∨ (book.spine.length : Int) ≤ i))) := by
  refine ⟨fun h => read_chapter_of_none h, fun h => ⟨fun he => ?_, fun hc => read_chapter_oor h hc⟩⟩
  by_contra hc
  push_neg at hc
  have h0 : 0 ≤ i := by omega
  have hn : i < (book.spine.length : Int) := by omega
  obtain ⟨hlt, hok⟩ := read_chapter_ok h h0 hn
  rw [hok] at he
  exact Except.noConfusion he

/-- C3 witness: a missing book is BookNotFound even at an out-of-range
index, and index 7 on the three-chapter sample book is ChapterOutOfRange. -/
theorem read_chapter_errors_witness :
    read_chapter (fun _ => none) "nope" 7 = Except.error ReadError.bookNotFound ∧
    read_chapter sampleCache "Sample_data" 7 = Except.error ReadError.chapterOutOfRange :=
  ⟨(read_chapter_errors (fun _ => none) "nope" 7 sampleBook).1 rfl,
   ((read_chapter_errors sampleCache "Sample_data" 7 sampleBook).2 (by decide)).mpr
     (by decide)⟩

/-- C7: the bare read route calls read_chapter without the required request
argument, so for every book identity it raises TypeError (surfaced as HTTP
500) instead of the result of resolving at index 0 — in particular for the
loadable sample book, whose index-0 resolution would have succeeded with
the first chapter. -/
theorem redirect_to_first_chapter_type_error :
    (∀ (cache : String → Option Book) (book_id : String),
      redirect_to_first_chapter cache book_id = CallOutcome.typeError) ∧
    redirect_to_first_chapter sampleCache "Sample_data" ≠
      CallOutcome.returns (read_chapter sampleCache "Sample_data" 0) ∧
    read_chapter sampleCache "Sample_data" 0 =
      Except.ok { book := sampleBook
                  current_chapter := ⟨"c0"⟩
                  chapter_index := 0
                  book_id := "Sample_data"
                  prev_idx := none
                  next_idx := some 1 } := by
  refine ⟨fun cache book_id => rfl, ?_, rfl⟩
  intro h
  exact CallOutcome.noConfusion h

/-- C10: when the store root directory does not exist, library_view scans
nothing and returns the empty book list. -/
theorem library_view_missing_root (entries : List DirEntry)
    (cache : String → Option Book) :
    library_view false entries cache = [] := rfl

/-- C8: evaluating upload_epub where ingestion raises shows the temporary
file is created but not removed before returning, while the success path
does remove it — refuting removal on both paths. -/
theorem upload_epub_temp_leak :
    (upload_epub "book.epub" (Except.error "boom")).tempCreated = true ∧
    (upload_epub "book.epub" (Except.error "boom")).tempRemoved = false ∧
    (upload_epub "book.epub" (Except.error "boom")).response =
      UploadResponse.serverError "boom" ∧
    (upload_epub "book.epub" (Except.ok sampleBook)).tempRemoved = true := by
  decide

/-- C9: the uploaded filename ../../evil.epub passes the extension check,
keeps its traversal segments through splitext, and yields the output folder
books/../../evil_data, which lies outside the store root. -/
theorem upload_output_dir_traversal :
    strEndsWith "../../evil.epub" ".epub" = true ∧
    splitextRoot "../../evil.epub" = "../../evil" ∧
    upload_output_dir "books" "../../evil.epub" = "books/../../evil_data" ∧
    staysUnder "books" (upload_output_dir "books" "../../evil.epub") = false ∧
    staysUnder "books" (upload_output_dir "books" "novel.epub") = true := by
  decide

/-- C4 counterexample: with an artifact absent on disk, the first get
returns absent and reads disk, but the second get for the same identity is
served from cache without a fresh disk load — the negative result was
cached. -/
theorem load_book_cached_negative_cached :
    (load_book_cached (fun _ => none) ⟨[]⟩ "b_data").value = none ∧
    (load_book_cached (fun _ => none) ⟨[]⟩ "b_data").diskRead = true ∧
    (load_book_cached (fun _ => none)
      (load_book_cached (fun _ => none) ⟨[]⟩ "b_data").state "b_data").diskRead = false ∧
    (load_book_cached (fun _ => none)
      (load_book_cached (fun _ => none) ⟨[]⟩ "b_data").state "b_data").value = none := by
  decide

theorem find?_eq_none_of_not_mem_fst (es : List (String × Option Book))
    (k : String) (hk : k ∉ es.map Prod.fst) :
    es.find? (fun e => e.1 == k) = none := by
  rw [List.find?_eq_none]
  intro x hx hxk
  exact hk (beq_iff_eq.mp hxk ▸ List.mem_map_of_mem Prod.fst hx)

theorem lookupEntry_eq_none_of_not_mem_fst (es : List (String × Option Book))
    (k : String) (hk : k ∉ es.map Prod.fst) : lookupEntry es k = none := by
  simp [lookupEntry, find?_eq_none_of_not_mem_fst es k hk]

/-- C4 (amended): a miss whose load comes back absent returns absent to the
caller, but the negative result is cached: the new state stores the absent
entry and a second get for the same identity is served the remembered
absent without a fresh disk read. -/
theorem load_book_cached_absent_is_cached (disk : String → Option Book)
    (s : LruState) (k : String) (hd : disk k = none)
    (hm : lookupEntry s.entries k = none) :
    (load_book_cached disk s k).value = none ∧
    (load_book_cached disk s k).diskRead = true ∧
    lookupEntry (load_book_cached disk s k).state.entries k = some none ∧
    (load_book_cached disk (load_book_cached disk s k).state k).diskRead = false ∧
    (load_book_cached disk (load_book_cached disk s k).state k).value = none := by
  have hf : s.entries.find? (fun e => e.1 == k) = none := by
    simpa [lookupEntry, Option.map_eq_none'] using hm
  have hstate : (load_book_cached disk s k).state =
      ⟨(k, none) :: s.entries.take 9⟩ := by
    simp [load_book_cached, hf, hd, lruCapacity, List.take_succ_cons]
  have hfind : ((k, (none : Option Book)) :: s.entries.take 9).find?
      (fun e => e.1 == k) = some (k, none) := by
    simp [List.find?_cons]
  refine ⟨?_, ?_, ?_, ?_, ?_⟩
  · simp [load_book_cached, hf, hd]
  · simp [load_book_cached, hf]
  · rw [hstate]; simp [lookupEntry, hfind]
  · rw [hstate]; simp [load_book_cached, hfind]
  · rw [hstate]; simp [load_book_cached, hfind]

/-- C4 witness: a cache holding one other entry and a disk with no artifact
for the requested folder. -/
theorem load_book_cached_absent_is_cached_witness :
    ((fun (_ : String) => (none : Option Book)) "b_data" = none) ∧
    lookupEntry [("other", some sampleBook)] "b_data" = none ∧
    (load_book_cached (fun _ => none) ⟨[("other", some sampleBook)]⟩ "b_data").value = none ∧
    (load_book_cached (fun _ => none) ⟨[("other", some sampleBook)]⟩ "b_data").diskRead = true ∧
    lookupEntry (load_book_cached (fun _ => none)
      ⟨[("other", some sampleBook)]⟩ "b_data").state.entries "b_data" = some none ∧
    (load_book_cached (fun _ => none) (load_book_cached (fun _ => none)
      ⟨[("other", some sampleBook)]⟩ "b_data").state "b_data").diskRead = false ∧
    (load_book_cached (fun _ => none) (load_book_cached (fun _ => none)
      ⟨[("other", some sampleBook)]⟩ "b_data").state "b_data").value = none := by
  refine ⟨rfl, by decide, ?_⟩
  have h := load_book_cached_absent_is_cached (fun _ => none)
    ⟨[("other", some sampleBook)]⟩ "b_data" rfl (by decide)
  exact ⟨h.1, h.2.1, h.2.2.1, h.2.2.2.1, h.2.2.2.2⟩

theorem filterMap_ite {α β : Type} (p : α → Bool) (f : α → Option β)
    (l : List α) :
    l.filterMap (fun a => if p a then f a else none) =
      (l.filter p).filterMap f := by
  induction l with
  | nil => rfl
  | cons a l ih =>
    cases h : p a
    · simp [List.filter_cons, h, List.filterMap_cons, ih]
    · cases hf : f a <;>
        simp [List.filter_cons, h, List.filterMap_cons, hf, ih]

/-- C6: with an existing root, the catalog is exactly the spec's pipeline —
filter the direct children that are directories named with suffix _data,
then keep those whose book loads — and a summary is listed iff some such
child has a loadable book with that id, title, comma-joined authors, and
spine length. -/
theorem library_view_catalog (entries : List DirEntry)
    (cache : String → Option Book) :
    library_view true entries cache =
      (list_candidates entries).filterMap
        (fun e => (cache e.name).map (summarize e)) ∧
    ∀ s : BookSummary, s ∈ library_view true entries cache ↔
      ∃ e, e ∈ entries ∧ e.isDir = true ∧ strEndsWith e.name "_data" = true ∧
        ∃ b : Book, cache e.name = some b ∧ s = summarize e b := by
  have h1 : library_view true entries cache =
      (list_candidates entries).filterMap
        (fun e => (cache e.name).map (summarize e)) := by
    simp only [library_view, if_pos trivial, list_candidates]
    exact filterMap_ite _ _ entries
  refine ⟨h1, fun s => ?_⟩
  rw [h1]
  constructor
  · intro hs
    rw [List.mem_filterMap] at hs
    obtain ⟨e, he, hmap⟩ := hs
    rw [list_candidates, List.mem_filter] at he
    obtain ⟨hmem, hcond⟩ := he
    rw [Bool.and_eq_true] at hcond
    obtain ⟨b, hb, hsb⟩ := Option.map_eq_some'.mp hmap
    exact ⟨e, hmem, hcond.2, hcond.1, b, hb, hsb.symm⟩
  · intro ⟨e, hmem, hdir, hsuf, b, hb, hsb⟩
    rw [List.mem_filterMap]
    refine ⟨e, ?_, ?_⟩
    · rw [list_candidates, List.mem_filter, Bool.and_eq_true]
      exact ⟨hmem, hsuf, hdir⟩
    · rw [hb, hsb]; rfl

/-- C6 witness: a root with one good book folder, one non-suffixed folder,
one corrupt book folder, and one non-directory entry. -/
theorem library_view_catalog_witness :
    library_view true
        [⟨"Sample_data", true⟩, ⟨"notes", true⟩,
         ⟨"Broken_data", true⟩, ⟨"x_data", false⟩] sampleCache =
      (list_candidates
        [⟨"Sample_data", true⟩, ⟨"notes", true⟩,
         ⟨"Broken_data", true⟩, ⟨"x_data", false⟩]).filterMap
        (fun e => (sampleCache e.name).map (summarize e)) ∧
    ⟨"Sample_data", "Sample", "A. Author", 3⟩ ∈
      library_view true
        [⟨"Sample_data", true⟩, ⟨"notes", true⟩,
         ⟨"Broken_data", true⟩, ⟨"x_data", false⟩] sampleCache := by
  have h := library_view_catalog
    [⟨"Sample_data", true⟩, ⟨"notes", true⟩,
     ⟨"Broken_data", true⟩, ⟨"x_data", false⟩] sampleCache
  refine ⟨h.1, (h.2 _).mpr ?_⟩
  exact ⟨⟨"Sample_data", true⟩, by decide, rfl, by decide, sampleBook, rfl, by decide⟩

/-! ### Lemmas about the cache bound and eviction order -/

theorem load_book_cached_state_length_le (disk : String → Option Book)
    (s : LruState) (k : String) (h : s.entries.length ≤ lruCapacity) :
    (load_book_cached disk s k).state.entries.length ≤ lruCapacity := by
  unfold load_book_cached
  cases hf : s.entries.find? (fun e => e.1 == k) with
  | some e =>
    have hmem : e ∈ s.entries := List.mem_of_find?_eq_some hf
    have hpe : (e.1 == k) = true := by simpa using List.find?_some hf
    have hlt : (s.entries.filter (fun e2 => !(e2.1 == k))).length <
        s.entries.length := by
      rw [List.length_filter_lt_length_iff_exists]
      exact ⟨e, hmem, by simp [hpe]⟩
    simp only [List.length_cons]
    omega
  | none =>
    simp only [List.length_take]
    exact Nat.min_le_left _ _

theorem runLoads_length_le (disk : String → Option Book)
    (keys : List String) :
    ∀ s : LruState, s.entries.length ≤ lruCapacity →
      (runLoads disk s keys).entries.length ≤ lruCapacity := by
  induction keys with
  | nil => intro s h; exact h
  | cons k ks ih =>
    intro s h
    simp only [runLoads, List.foldl_cons]
    exact ih _ (load_book_cached_state_length_le disk s k h)

theorem load_book_cached_miss_entries (disk : String → Option Book)
    (s : LruState) (k : String) (hk : k ∉ s.entries.map Prod.fst) :
    (load_book_cached disk s k).state.entries =
      ((k, disk k) :: s.entries).take lruCapacity ∧
    (load_book_cached disk s k).diskRead = true := by
  have hf := find?_eq_none_of_not_mem_fst s.entries k hk
  constructor <;> simp [load_book_cached, hf]

theorem take_append_take {α : Type} (a b : List α) (n : Nat) :
    (a ++ b.take n).take n = (a ++ b).take n := by
  have hmin : (n - a.length) ⊓ n = n - a.length := by omega
  rw [List.take_append_eq_append_take, List.take_append_eq_append_take,
    List.take_take, hmin]

theorem runLoads_fresh (disk : String → Option Book) (keys : List String) :
    ∀ s : LruState, keys.Nodup →
      (∀ k ∈ keys, k ∉ s.entries.map Prod.fst) →
      s.entries.length ≤ lruCapacity →
      (runLoads disk s keys).entries.map Prod.fst =
        (keys.reverse ++ s.entries.map Prod.fst).take lruCapacity := by
  induction keys with
  | nil =>
    intro s _ _ hlen
    simp only [runLoads, List.foldl_nil, List.reverse_nil, List.nil_append]
    rw [List.take_of_length_le (by simpa using hlen)]
  | cons k ks ih =>
    intro s hnd hfresh hlen
    obtain ⟨hkks, hnd2⟩ := List.nodup_cons.mp hnd
    have hkfresh : k ∉ s.entries.map Prod.fst :=
      hfresh k (List.mem_cons_self k ks)
    obtain ⟨hent, _⟩ := load_book_cached_miss_entries disk s k hkfresh
    have hmap1 : (load_book_cached disk s k).state.entries.map Prod.fst =
        (k :: s.entries.map Prod.fst).take lruCapacity := by
      rw [hent, List.map_take]
      simp
    have hlen1 : (load_book_cached disk s k).state.entries.length ≤
        lruCapacity := load_book_cached_state_length_le disk s k hlen
    have hfresh1 : ∀ x ∈ ks,
        x ∉ (load_book_cached disk s k).state.entries.map Prod.fst := by
      intro x hx hmem
      rw [hmap1] at hmem
      rcases List.mem_cons.mp (List.mem_of_mem_take hmem) with h1 | h1
      · exact hkks (h1 ▸ hx)
      · exact hfresh x (List.mem_cons_of_mem k hx) h1
    have hrun : runLoads disk s (k :: ks) =
        runLoads disk (load_book_cached disk s k).state ks := by
      simp only [runLoads, List.foldl_cons]
    rw [hrun, ih _ hnd2 hfresh1 hlen1, hmap1, take_append_take,
      List.reverse_cons, List.append_assoc]
    rfl

/-- C5: the cache never exceeds 10 entries over any call sequence from the
empty state; a fresh key inserted into a full cache evicts exactly the
least-recently-used entry; and after loading 11 distinct identities from
empty, the first one is no longer in the cache, so getting it again reads
disk afresh. -/
theorem lru_cache_bounded :
    (∀ (disk : String → Option Book) (keys : List String),
      (runLoads disk ⟨[]⟩ keys).entries.length ≤ 10) ∧
    (∀ (disk : String → Option Book) (s : LruState) (k : String),
      s.entries.length = 10 → k ∉ s.entries.map Prod.fst →
      (load_book_cached disk s k).state.entries =
        (k, disk k) :: s.entries.dropLast ∧
      (load_book_cached disk s k).state.entries.length = 10) ∧
    (∀ (disk : String → Option Book) (k : String) (ks : List String),
      (k :: ks).Nodup → ks.length = 10 →
      lookupEntry (runLoads disk ⟨[]⟩ (k :: ks)).entries k = none ∧
      (load_book_cached disk (runLoads disk ⟨[]⟩ (k :: ks)) k).diskRead = true) := by
  refine ⟨?_, ?_, ?_⟩
  · intro disk keys
    exact runLoads_length_le disk keys ⟨[]⟩ (Nat.zero_le _)
  · intro disk s k hlen hk
    obtain ⟨hent, _⟩ := load_book_cached_miss_entries disk s k hk
    have hcap : lruCapacity = 9 + 1 := rfl
    have h1 : (load_book_cached disk s k).state.entries =
        (k, disk k) :: s.entries.dropLast := by
      rw [hent, hcap, List.take_succ_cons]
      congr 1
      rw [List.dropLast_eq_take, hlen]
    refine ⟨h1, ?_⟩
    rw [h1, List.length_cons, List.length_dropLast, hlen]
  · intro disk k ks hnd hlen10
    have hmap := runLoads_fresh disk (k :: ks) ⟨[]⟩ hnd (by simp)
      (Nat.zero_le _)
    have h10 : lruCapacity = ks.reverse.length := by
      simp [lruCapacity, hlen10]
    have hmap2 : (runLoads disk ⟨[]⟩ (k :: ks)).entries.map Prod.fst =
        ks.reverse := by
      rw [hmap]
      show ((k :: ks).reverse ++ []).take lruCapacity = ks.reverse
      rw [List.append_nil, List.reverse_cons, h10, List.take_left]
    have hknot : k ∉ (runLoads disk ⟨[]⟩ (k :: ks)).entries.map Prod.fst := by
      rw [hmap2, List.mem_reverse]
      exact (List.nodup_cons.mp hnd).1
    exact ⟨lookupEntry_eq_none_of_not_mem_fst _ _ hknot,
      (load_book_cached_miss_entries disk _ k hknot).2⟩

/-- C5 witness: three calls stay bounded; a fresh key on the full ten-entry
state evicts the last entry; eleven distinct keys from empty evict the
first key, whose next get reads disk. -/
theorem lru_cache_bounded_witness :
    (runLoads constDisk ⟨[]⟩ ["a", "b", "a"]).entries.length ≤ 10 ∧
    ((load_book_cached constDisk tenState "fresh").state.entries =
        ("fresh", constDisk "fresh") :: tenState.entries.dropLast ∧
      (load_book_cached constDisk tenState "fresh").state.entries.length = 10) ∧
    (lookupEntry (runLoads constDisk ⟨[]⟩
        ("k00" :: ["k01", "k02", "k03", "k04", "k05", "k06", "k07", "k08",
          "k09", "k10"])).entries "k00" = none ∧
      (load_book_cached constDisk (runLoads constDisk ⟨[]⟩
        ("k00" :: ["k01", "k02", "k03", "k04", "k05", "k06", "k07", "k08",
          "k09", "k10"])) "k00").diskRead = true) :=
  ⟨lru_cache_bounded.1 constDisk ["a", "b", "a"],
   lru_cache_bounded.2.1 constDisk tenState "fresh" (by decide) (by decide),
   lru_cache_bounded.2.2 constDisk "k00"
     ["k01", "k02", "k03", "k04", "k05", "k06", "k07", "k08", "k09", "k10"]
     (by decide) (by decide)⟩

/-! ### Lemmas about basename, join and path segments -/

theorem basename_data (s : String) : (basename s).data = bnCh s.data := rfl

theorem bnCh_no_slash (cs : List Char) : ∀ c ∈ bnCh cs, c ≠ '/' := by
  intro c hc
  unfold bnCh at hc
  rw [List.mem_reverse] at hc
  simpa using List.mem_takeWhile_imp hc

theorem bnCh_head_ne_slash (cs : List Char) : (bnCh cs).head? ≠ some '/' := by
  cases h : bnCh cs with
  | nil => simp
  | cons a t =>
    have ha : a ∈ bnCh cs := by rw [h]; exact List.mem_cons_self a t
    simp [bnCh_no_slash cs a ha]

theorem getLast?_not_slash (cs : List Char) (h : ∀ c ∈ cs, c ≠ '/')
    (hne : cs ≠ []) : cs.getLast? ≠ some '/' := by
  rw [List.getLast?_eq_getLast cs hne]
  intro hc
  exact h _ (List.getLast_mem hne) (Option.some.inj hc)

theorem pjoinCh_of_ne (p b : List Char) (hb : b.head? ≠ some '/')
    (hp : p ≠ []) (hl : p.getLast? ≠ some '/') :
    pjoinCh p b = p ++ '/' :: b := by
  unfold pjoinCh
  rw [if_neg hb, if_neg (not_or.mpr ⟨hp, hl⟩)]

theorem pjoinCh_of_last_slash (p b : List Char) (hb : b.head? ≠ some '/')
    (hl : p.getLast? = some '/') :
    pjoinCh p b = p ++ b := by
  unfold pjoinCh
  rw [if_neg hb, if_pos (Or.inr hl)]

theorem getLast?_append_cons (l : List Char) (c : Char) (bb : List Char) :
    (l ++ c :: bb).getLast? = (c :: bb).getLast? := by
  rw [List.getLast?_append]
  cases hx : (c :: bb).getLast? with
  | none => exact absurd (List.getLast?_eq_none_iff.mp hx) (by simp)
  | some y => rfl

theorem splitSegs_ne_nil (cs : List Char) : splitSegs cs ≠ [] := by
  induction cs with
  | nil => simp [splitSegs]
  | cons c rest ih =>
    rcases h : splitSegs rest with _ | ⟨s, ss⟩
    · exact absurd h ih
    · simp only [splitSegs, h]
      split_ifs <;> simp

theorem splitSegs_append_slash (a b : List Char) :
    splitSegs (a ++ '/' :: b) = splitSegs a ++ splitSegs b := by
  induction a with
  | nil =>
    simp only [List.nil_append]
    rcases h : splitSegs b with _ | ⟨s, ss⟩
    · exact absurd h (splitSegs_ne_nil b)
    · simp [splitSegs, h]
  | cons c a ih =>
    rcases h2 : splitSegs a with _ | ⟨u, us⟩
    · exact absurd h2 (splitSegs_ne_nil a)
    · rcases h3 : splitSegs (a ++ '/' :: b) with _ | ⟨w, ws⟩
      · exact absurd h3 (splitSegs_ne_nil _)
      · have hih := ih
        rw [h3, h2] at hih
        rw [List.cons_append] at hih
        injection hih with hw hws
        show splitSegs (c :: (a ++ '/' :: b)) = splitSegs (c :: a) ++ splitSegs b
        simp only [splitSegs, h3, h2]
        split_ifs <;> simp [hw, hws]

theorem splitSegs_no_slash (cs : List Char) (h : ∀ c ∈ cs, c ≠ '/') :
    splitSegs cs = [cs] := by
  induction cs with
  | nil => rfl
  | cons c rest ih =>
    have hrest : splitSegs rest = [rest] :=
      ih (fun x hx => h x (List.mem_cons_of_mem c hx))
    simp [splitSegs, hrest, h c (List.mem_cons_self c rest)]

/-- The full path serve_image builds, at the character level: the basename
of the book id becomes one component (or collapses when empty), images is
one component, and the basename of the image name is the last component. -/
theorem serve_image_path_data (root b n : String) (hne : root.data ≠ [])
    (hlast : root.data.getLast? ≠ some '/') :
    (serve_image_path root b n).data =
      if bnCh b.data = [] then
        root.data ++ '/' :: ("images".data ++ '/' :: bnCh n.data)
      else
        root.data ++ '/' ::
          (bnCh b.data ++ '/' :: ("images".data ++ '/' :: bnCh n.data)) := by
  have hbh := bnCh_head_ne_slash b.data
  have hnh := bnCh_head_ne_slash n.data
  have himgh : ("images".data).head? ≠ some '/' := by decide
  have hdata : (serve_image_path root b n).data =
      pjoinCh (pjoinCh (pjoinCh root.data (bnCh b.data)) "images".data)
        (bnCh n.data) := rfl
  have hj1 : pjoinCh root.data (bnCh b.data) = root.data ++ '/' :: bnCh b.data :=
    pjoinCh_of_ne _ _ hbh hne hlast
  by_cases hbb : bnCh b.data = []
  · rw [if_pos hbb]
    rw [hdata, hj1, hbb]
    have hl1 : (root.data ++ '/' :: ([] : List Char)).getLast? = some '/' := by
      rw [getLast?_append_cons]; rfl
    rw [pjoinCh_of_last_slash _ _ himgh hl1]
    have hl2 : ((root.data ++ ['/']) ++ "images".data).getLast? ≠ some '/' := by
      have : "images".data = 'i' :: "mages".data := rfl
      rw [this, getLast?_append_cons]
      decide
    rw [pjoinCh_of_ne _ _ hnh (by simp) hl2]
    simp [List.append_assoc]
  · rw [if_neg hbb]
    rw [hdata, hj1]
    have hl1 : (root.data ++ '/' :: bnCh b.data).getLast? ≠ some '/' := by
      rcases hq : bnCh b.data with _ | ⟨x, t⟩
      · exact absurd hq hbb
      · rw [getLast?_append_cons, List.getLast?_cons_cons]
        rw [← hq]
        exact getLast?_not_slash _ (bnCh_no_slash b.data) (by rw [hq]; simp)
    rw [pjoinCh_of_ne _ _ himgh (by simp) hl1]
    have hl2 : ((root.data ++ '/' :: bnCh b.data) ++ '/' :: "images".data).getLast? ≠
        some '/' := by
      rw [getLast?_append_cons]
      decide
    rw [pjoinCh_of_ne _ _ hnh (by simp) hl2]
    simp [List.append_assoc]

/-- The slash-separated segments of the path serve_image builds. -/
theorem serve_image_segs (root b n : String) (hne : root.data ≠ [])
    (hlast : root.data.getLast? ≠ some '/') :
    splitSegs (serve_image_path root b n).data =
      if bnCh b.data = [] then
        splitSegs root.data ++ ["images".data, bnCh n.data]
      else
        splitSegs root.data ++ [bnCh b.data, "images".data, bnCh n.data] := by
  have himgs : splitSegs "images".data = ["images".data] := by decide
  have hbs : splitSegs (bnCh b.data) = [bnCh b.data] :=
    splitSegs_no_slash _ (bnCh_no_slash b.data)
  have hns : splitSegs (bnCh n.data) = [bnCh n.data] :=
    splitSegs_no_slash _ (bnCh_no_slash n.data)
  rw [serve_image_path_data root b n hne hlast]
  by_cases hbb : bnCh b.data = []
  · rw [if_pos hbb, if_pos hbb, splitSegs_append_slash,
      splitSegs_append_slash, himgs, hns]
    simp
  · rw [if_neg hbb, if_neg hbb, splitSegs_append_slash,
      splitSegs_append_slash, splitSegs_append_slash, hbs, himgs, hns]
    simp

/-! ### Normalisation of the resolved path -/

theorem normStep_some (s : List (List Char)) (seg : List Char) :
    normStep (some s) seg =
      if seg = [] ∨ seg = ['.'] then some s
      else if seg = ['.', '.'] then
        if s = [] then none else some s.dropLast
      else some (s ++ [seg]) := rfl

theorem normStep_skip (s : List (List Char)) (seg : List Char)
    (h : seg = [] ∨ seg = ['.']) : normStep (some s) seg = some s := by
  rw [normStep_some, if_pos h]

theorem normStep_push (s : List (List Char)) (seg : List Char)
    (h1 : ¬(seg = [] ∨ seg = ['.'])) (h2 : seg ≠ ['.', '.']) :
    normStep (some s) seg = some (s ++ [seg]) := by
  rw [normStep_some, if_neg h1, if_neg h2]

theorem normStep_pop (s : List (List Char)) (x : List Char) :
    normStep (some (s ++ [x])) ['.', '.'] = some s := by
  rw [normStep_some, if_neg (by decide), if_pos rfl, if_neg (by simp),
    List.dropLast_concat]

theorem normStep_imgs (s : List (List Char)) :
    normStep (some s) "images".data = some (s ++ ["images".data]) :=
  normStep_push s _ (by decide) (by decide)

theorem normStep_last_under (s : List (List Char)) (x bn : List Char) :
    ∃ t, normStep (some (s ++ [x])) bn = some (s ++ t) := by
  by_cases h1 : bn = [] ∨ bn = ['.']
  · exact ⟨[x], normStep_skip _ _ h1⟩
  by_cases h2 : bn = ['.', '.']
  · exact ⟨[], by rw [h2, normStep_pop s x, List.append_nil]⟩
  · refine ⟨[x, bn], ?_⟩
    rw [normStep_push _ _ h1 h2, List.append_assoc]
    rfl

theorem normStk_append (s1 s2 : List (List Char)) :
    normStk (s1 ++ s2) = s2.foldl normStep (normStk s1) := by
  simp [normStk, List.foldl_append]

theorem prefOf_append (r t : List (List Char)) : prefOf r (r ++ t) = true := by
  induction r with
  | nil => rfl
  | cons a as ih => simp [prefOf, ih]

theorem foldl_three_under (r : List (List Char)) (bb bn : List Char)
    (hbb : bb ≠ ['.', '.']) :
    ∃ t, [bb, "images".data, bn].foldl normStep (some r) = some (r ++ t) := by
  simp only [List.foldl_cons, List.foldl_nil]
  by_cases h1 : bb = [] ∨ bb = ['.']
  · rw [normStep_skip r bb h1, normStep_imgs]
    exact normStep_last_under r "images".data bn
  · rw [normStep_push r bb h1 hbb, normStep_imgs]
    obtain ⟨t, ht⟩ := normStep_last_under (r ++ [bb]) "images".data bn
    exact ⟨[bb] ++ t, by rw [ht, ← List.append_assoc]⟩

theorem foldl_two_under (r : List (List Char)) (bn : List Char) :
    ∃ t, ["images".data, bn].foldl normStep (some r) = some (r ++ t) := by
  simp only [List.foldl_cons, List.foldl_nil]
  rw [normStep_imgs]
  exact normStep_last_under r "images".data bn

/-- C1 counterexample: the book id consisting of the single component dotdot
survives basename unchanged, so the resolved asset path climbs out of the
store root — refuting that traversal is impossible for every input. -/
theorem serve_image_path_dotdot_escape :
    basename ".." = ".." ∧
    serve_image_path "books" ".." "pic.jpg" = "books/../images/pic.jpg" ∧
    staysUnder "books" (serve_image_path "books" ".." "pic.jpg") = false ∧
    staysUnder "books" (serve_image_path "books" "b_data" "pic.jpg") = true := by
  decide

/-- C1 (amended): serve_image reduces both untrusted inputs to their final
path component before any concatenation; with a nonempty reduced book id
the resolved path is exactly root/sanitized_book_id/images/sanitized_name
(the claim's examples reduce to etc and secret); and the path stays under
the store root for every input whose final component is not the literal
dotdot — that lone component survives basename and escapes. -/
theorem serve_image_path_confined (root b n : String)
    (r : List (List Char)) (hr : normStk (splitSegs root.data) = some r)
    (hne : root.data ≠ []) (hlast : root.data.getLast? ≠ some '/') :
    (basename b ≠ "" →
      serve_image_path root b n =
        root ++ "/" ++ basename b ++ "/images/" ++ basename n) ∧
    basename "../../etc" = "etc" ∧
    basename "../secret" = "secret" ∧
    (basename b ≠ ".." →
      staysUnder root (serve_image_path root b n) = true) := by
  refine ⟨?_, by decide, by decide, ?_⟩
  · intro hb
    have hbb : bnCh b.data ≠ [] := by
      intro hc
      exact hb (String.ext (show (basename b).data = "".data from hc))
    apply String.ext
    rw [serve_image_path_data root b n hne hlast, if_neg hbb]
    have hsl : ("/" : String).data = ['/'] := rfl
    have him : ("/images/" : String).data = '/' :: ("images".data ++ ['/']) := rfl
    simp [String.data_append, basename_data, hsl, him, List.append_assoc]
  · intro hdd
    have hbb3 : bnCh b.data ≠ ['.', '.'] := by
      intro hc
      exact hdd (String.ext (show (basename b).data = "..".data from by
        rw [basename_data, hc]))
    have hsegs := serve_image_segs root b n hne hlast
    unfold staysUnder
    rw [hr, hsegs]
    by_cases hbb : bnCh b.data = []
    · rw [if_pos hbb, normStk_append, hr]
      obtain ⟨t, ht⟩ := foldl_two_under r (bnCh n.data)
      rw [ht]
      exact prefOf_append r t
    · rw [if_neg hbb, normStk_append, hr]
      obtain ⟨t, ht⟩ := foldl_three_under r (bnCh b.data) (bnCh n.data) hbb3
      rw [ht]
      exact prefOf_append r t

/-- C1 witness: with root books and the claim's own example inputs, the
resolved path is books/etc/images/secret and stays under the root. -/
theorem serve_image_path_confined_witness :
    serve_image_path "books" "../../etc" "../secret" = "books/etc/images/secret" ∧
    staysUnder "books" (serve_image_path "books" "../../etc" "../secret") = true := by
  have h := serve_image_path_confined "books" "../../etc" "../secret"
    [['b', 'o', 'o', 'k', 's']] (by decide) (by decide) (by decide)
  exact ⟨(h.1 (by decide)).trans (by decide), h.2.2.2 (by decide)⟩

end Reader3
